import Mathlib

/-!
Verification of the QuillMusic Manual Creator sequencer/timeline model.

The definitions below shallowly embed the pattern-based sequencer data model
and editing operations of the Manual Creator page
(`quillmusic/frontend/src/pages/ManualCreator.tsx`, together with the entity
shapes of `quillmusic/frontend/src/types/index.ts` and the
`apiClient.manual` surface).  The FastAPI backend that actually stores
projects, tracks, patterns and notes is not part of the analysed sources, so
its operations (`addPattern`, `replaceNotes`, `getNotes`) are modelled from
the specification's description of the Timeline Store; that is marked on
each such definition.
-/

set_option maxHeartbeats 1000000

namespace QuillMusic

/-- Instrument categories, the closed set from `types/index.ts`
(`InstrumentType`). -/
inductive InstrumentType where
  | drums | bass | chords | lead | fx | vocal
deriving DecidableEq, Repr

/-- A track, from the `Track` interface of `types/index.ts`.  The mixer
fields `volume`/`pan` (floating point numbers) and `muted`/`solo` are not
used by any of the verified operations and are omitted. -/
structure Track where
  id : String
  project_id : String
  name : String
  instrument_type : InstrumentType
  channel_index : Nat
deriving DecidableEq, Repr

/-- A pattern, from the `Pattern` interface of `types/index.ts`. -/
structure Pattern where
  id : String
  track_id : String
  name : String
  length_bars : Nat
  start_bar : Nat
deriving DecidableEq, Repr

/-- A pattern-creation request, from the `PatternCreate` interface of
`types/index.ts`. -/
structure PatternCreate where
  name : String
  length_bars : Nat
  start_bar : Nat
deriving DecidableEq, Repr

/-- A note, from the `Note` interface of `types/index.ts`.  `pitch` and
`velocity` are TypeScript `number`s holding integers, embedded as `Int`;
`step_index` is produced from array indices and is embedded as `Nat`. -/
structure Note where
  id : String
  pattern_id : String
  step_index : Nat
  pitch : Int
  velocity : Int
deriving DecidableEq, Repr

/-- A note-creation request, from the `NoteCreate` interface of
`types/index.ts`. -/
structure NoteCreate where
  pattern_id : String
  step_index : Nat
  pitch : Int
  velocity : Int
deriving DecidableEq, Repr

/-- The backing-store calls the Manual Creator page can issue through
`apiClient.manual` along the verified paths. -/
inductive ApiCall where
  | createPattern (trackId : String) (req : PatternCreate)
  | replacePatternNotes (patternId : String) (notes : List NoteCreate)
  | getPatternNotes (patternId : String)
deriving DecidableEq, Repr

/-- Error kinds raised by the Timeline Store (spec section 7). -/
inductive ApiError where
  | ValidationError | OverlapError | NotFoundError
deriving DecidableEq, Repr

/-! ### The working note grid

`ManualCreator.tsx` keeps the note grid as a JavaScript
`Map<string, Note>` keyed by the template string `` `${step_index}-${pitch}` ``.
A JavaScript `Map` is an insertion-ordered association list with unique
keys: `set` overwrites in place when the key is present and appends
otherwise, `delete` removes the key's entry, and `values()` iterates in
insertion order.  The grid is embedded accordingly. -/

/-- The working note grid: an insertion-ordered association list from
string keys to notes, mirroring the page's `Map<string, Note>`. -/
abbrev Grid := List (String × Note)

/-- The composite grid key, the template string `` `${stepIndex}-${pitch}` ``
used by `toggleNote` and `loadPatternNotes`. -/
def mkKey (stepIndex : Nat) (pitch : Int) : String :=
  toString stepIndex ++ "-" ++ toString pitch

/-- `Map.has`: does the grid contain the key? -/
def gridHas (g : Grid) (k : String) : Bool :=
  g.any (fun e => e.1 == k)

/-- `Map.get`: the note stored at the key, if any. -/
def gridLookup (g : Grid) (k : String) : Option Note :=
  (g.find? (fun e => e.1 == k)).map (fun e => e.2)

/-- `Map.set`: overwrite in place when the key is present, append
otherwise. -/
def gridSet (g : Grid) (k : String) (v : Note) : Grid :=
  if gridHas g k then g.map (fun e => if e.1 == k then (k, v) else e)
  else g ++ [(k, v)]

/-- `Map.delete`: remove the key's entry. -/
def gridDelete (g : Grid) (k : String) : Grid :=
  g.filter (fun e => e.1 != k)

/-- `Map.values()` in insertion order. -/
def gridValues (g : Grid) : List Note :=
  g.map (fun e => e.2)

/-- The `toggleNote` handler of `ManualCreator.tsx` (source lines 360-378):
copy the grid; if the key is present delete it, otherwise insert a
temporary note with id `"temp"`, the selected pattern's id, and velocity
100.  The handler issues no backing-store call, recorded by the (empty)
`ApiCall` trace it returns. -/
def toggleNote (selectedPatternId : String) (noteGrid : Grid)
    (stepIndex : Nat) (pitch : Int) : Grid × List ApiCall :=
  let key := mkKey stepIndex pitch
  if gridHas noteGrid key then
    (gridDelete noteGrid key, [])
  else
    (gridSet noteGrid key
      { id := "temp", pattern_id := selectedPatternId,
        step_index := stepIndex, pitch := pitch, velocity := 100 }, [])

/-- The grid-building loop of `loadPatternNotes` (source lines 291-303):
for each fetched note, `noteMap.set` at key `` `${step_index}-${pitch}` ``. -/
def buildNoteGrid (notes : List Note) : Grid :=
  notes.foldl (fun noteMap note =>
    gridSet noteMap (mkKey note.step_index note.pitch) note) []

/-! ### The Timeline Store (backend)

The backend of this repository (the FastAPI service behind
`apiClient.manual`) is not part of the analysed sources, so its pattern and
note storage is modelled from the specification's description of the
Timeline Store (spec sections 3, 4.1 and 7). -/

/-- The Timeline Store's state for a single project: its patterns and
notes, plus a counter used to assign fresh identities. -/
structure Store where
  patterns : List Pattern
  notes : List Note
  nextId : Nat
deriving DecidableEq, Repr

/-- Do the half-open bar ranges `[s1, s1+l1)` and `[s2, s2+l2)` have a
common bar? -/
def rangesIntersect (s1 l1 s2 l2 : Nat) : Bool :=
  max s1 s2 < min (s1 + l1) (s2 + l2)

/-- Modelled from the spec: the Timeline Store's
`addPattern(trackId, name, lengthBars, startBar)` (spec section 4.1), which
is not under the analysed sources.  It "must check for overlap against
existing Patterns on the same track; fails with `OverlapError` if
`[startBar, startBar+lengthBars)` intersects any existing pattern's range
on that track", and otherwise stores the new pattern with a freshly
generated identity. -/
def addPattern (st : Store) (trackId : String) (req : PatternCreate) :
    Except ApiError (Store × Pattern) :=
  match st.patterns.find? (fun q => q.track_id == trackId &&
      rangesIntersect req.start_bar req.length_bars q.start_bar q.length_bars) with
  | some _ => .error .OverlapError
  | none =>
      let p : Pattern :=
        { id := "pattern-" ++ toString st.nextId, track_id := trackId,
          name := req.name, length_bars := req.length_bars,
          start_bar := req.start_bar }
      .ok ({ st with patterns := st.patterns ++ [p], nextId := st.nextId + 1 }, p)

/-- The fixed steps-per-pattern resolution; `NUM_STEPS = 16` in
`ManualCreator.tsx` (source line 232). -/
def STEPS_PER_PATTERN : Nat := 16

/-- Modelled from the spec: the validity check of `replaceNotes`
(spec section 4.1) — `step_index` within `[0, STEPS_PER_PATTERN)` and
`velocity` within `[0, 127]`. -/
def validNoteCreate (nc : NoteCreate) : Bool :=
  nc.step_index < STEPS_PER_PATTERN && 0 ≤ nc.velocity && nc.velocity ≤ 127

/-- Modelled from the spec: fresh server-assigned identities for the
entries inserted by `replaceNotes` ("generated identities assigned
fresh"); the owning pattern is the addressed one. -/
def assignNoteIds (base : Nat) (patternId : String) (l : List NoteCreate) :
    List Note :=
  l.enum.map (fun e =>
    { id := "note-" ++ toString (base + e.1), pattern_id := patternId,
      step_index := e.2.step_index, pitch := e.2.pitch,
      velocity := e.2.velocity })

/-- Modelled from the spec: the Timeline Store's
`replaceNotes(patternId, noteList)` (spec section 4.1), reached through
`apiClient.manual.replacePatternNotes` alias `createNotesBulk`, which is
not under the analysed sources.  It is a transactional replace-all:
validation happens before any mutation, failing with `ValidationError` if
any entry has `step_index` outside `[0, STEPS_PER_PATTERN)` or `velocity`
outside `[0, 127]`; otherwise every existing note of the pattern is
deleted and the given entries inserted with fresh identities in one
all-or-nothing step. -/
def replaceNotes (st : Store) (patternId : String) (noteList : List NoteCreate) :
    Except ApiError (Store × List Note) :=
  if noteList.all validNoteCreate then
    let fresh := assignNoteIds st.nextId patternId noteList
    .ok ({ st with
            notes := st.notes.filter (fun n => n.pattern_id != patternId) ++ fresh,
            nextId := st.nextId + noteList.length }, fresh)
  else .error .ValidationError

/-- Modelled from the spec: the Timeline Store's `getNotes(patternId)`
(spec section 4.1), reached through `apiClient.manual.getPatternNotes`,
which is not under the analysed sources.  It returns the pattern's stored
notes deterministically (here: in storage order). -/
def getNotes (st : Store) (patternId : String) : List Note :=
  st.notes.filter (fun n => n.pattern_id == patternId)

/-- The store reached after a `replaceNotes` request, together with its
outcome: on failure the store is the unchanged one the request started
from. -/
def runReplaceNotes (st : Store) (patternId : String) (noteList : List NoteCreate) :
    Store × Except ApiError (List Note) :=
  match replaceNotes st patternId noteList with
  | .ok r => (r.1, .ok r.2)
  | .error e => (st, .error e)

/-! ### The Manual Creator page handlers -/

/-- The `getPatternAtCell` helper of `ManualCreator.tsx` (source lines
398-403): scan `projectDetail.patterns` for the first pattern of the track
whose half-open range `[start_bar, start_bar + length_bars)` contains the
bar. -/
def getPatternAtCell (patterns : List Pattern) (trackId : String) (bar : Nat) :
    Option Pattern :=
  patterns.find? (fun p => p.track_id == trackId &&
    p.start_bar ≤ bar && bar < p.start_bar + p.length_bars)

/-- The result of a grid-cell click: the store afterwards, the pattern
newly stored in `selectedPattern` (`none` when the selection is left
unchanged because creation failed), and the backing-store calls issued. -/
structure ClickResult where
  store : Store
  selectedPattern : Option Pattern
  calls : List ApiCall
deriving DecidableEq, Repr

/-- The `handleCellClick` handler of `ManualCreator.tsx` (source lines
333-358): look for a pattern of the clicked track whose `start_bar` equals
the clicked bar; select it if found, otherwise request creation of a new
pattern named `` `Pattern ${bar + 1}` `` with `length_bars := 2` and
`start_bar := bar` and select the newly created pattern (errors are caught
and leave page state unchanged). -/
def handleCellClick (st : Store) (track : Track) (bar : Nat) : ClickResult :=
  match st.patterns.find? (fun p => p.track_id == track.id && p.start_bar == bar) with
  | some existingPattern => ⟨st, some existingPattern, []⟩
  | none =>
      let req : PatternCreate :=
        { name := "Pattern " ++ toString (bar + 1), length_bars := 2, start_bar := bar }
      match addPattern st track.id req with
      | .ok r => ⟨r.1, some r.2, [.createPattern track.id req]⟩
      | .error _ => ⟨st, none, [.createPattern track.id req]⟩

/-- The `loadPatternNotes` handler of `ManualCreator.tsx` (source lines
291-303): fetch the pattern's notes and rebuild the working grid keyed by
`` `${step_index}-${pitch}` ``. -/
def loadPatternNotes (st : Store) (patternId : String) : Grid :=
  buildNoteGrid (getNotes st patternId)

/-- The `handleSaveNotes` handler of `ManualCreator.tsx` (source lines
380-396): convert the working grid's values into `NoteCreate` entries for
the selected pattern, send them through
`apiClient.manual.replacePatternNotes`, and on success reload the grid via
`loadPatternNotes` "to get proper IDs" (errors are caught and leave the
grid unchanged).  Returns the store afterwards, the grid afterwards, and
the backing-store calls issued. -/
def handleSaveNotes (st : Store) (selectedPatternId : String) (noteGrid : Grid) :
    Store × Grid × List ApiCall :=
  let notes : List NoteCreate := (gridValues noteGrid).map (fun note =>
    { pattern_id := selectedPatternId, step_index := note.step_index,
      pitch := note.pitch, velocity := note.velocity })
  match replaceNotes st selectedPatternId notes with
  | .ok r =>
      (r.1, loadPatternNotes r.1 selectedPatternId,
        [.replacePatternNotes selectedPatternId notes,
         .getPatternNotes selectedPatternId])
  | .error _ =>
      (st, noteGrid, [.replacePatternNotes selectedPatternId notes])

/-! ### Derived notions used by the statements -/

/-- The grid key belonging to a note's own fields, `` `${step_index}-${pitch}` ``. -/
def noteKey (n : Note) : String :=
  mkKey n.step_index n.pitch

/-- The (step_index, pitch, velocity) triples held by a working grid, in
insertion order. -/
def gridTriples (g : Grid) : List (Nat × Int × Int) :=
  (gridValues g).map (fun n => (n.step_index, n.pitch, n.velocity))

/-- A working grid is well-formed when every entry sits under the key built
from its own note's `step_index` and `pitch`.  Both `loadPatternNotes` and
`toggleNote` only ever store a note under its own key. -/
def WFGrid (g : Grid) : Prop :=
  ∀ e ∈ g, e.1 = noteKey e.2

/-- The placement invariant: the bar ranges of any two distinct patterns on
the same track do not intersect. -/
def NoOverlaps (ps : List Pattern) : Prop :=
  ∀ p1 ∈ ps, ∀ p2 ∈ ps, p1.track_id = p2.track_id → p1 ≠ p2 →
    rangesIntersect p1.start_bar p1.length_bars p2.start_bar p2.length_bars = false

/-- The canonical decimal digit string of a natural number: what
`Nat.toDigitsCore` produces once its fuel suffices. -/
def padRep (n : Nat) : List Char :=
  if n = 0 then ['0'] else ((Nat.digits 10 n).map Nat.digitChar).reverse

/-- The character content of `toString (i : Int)`: the natural part's
digits, with a leading minus sign for negative numbers. -/
def intChars : Int → List Char
  | .ofNat m => (Nat.repr m).data
  | .negSucc m => '-' :: (Nat.repr (m + 1)).data

/-- Decimal digit value of a character, the left inverse of
`Nat.digitChar` on digits. -/
def digitVal (c : Char) : Nat :=
  c.toNat - 48

/-! ### Concrete sample data for witnesses and counterexamples -/

/-- A sample drum track. -/
def sampleTrack : Track :=
  { id := "t1", project_id := "proj1", name := "drums 1",
    instrument_type := .drums, channel_index := 0 }

/-- A sample pattern occupying the bar range `[2, 4)` on `sampleTrack`. -/
def samplePattern : Pattern :=
  { id := "p1", track_id := "t1", name := "Pattern 3", length_bars := 2,
    start_bar := 2 }

/-- A sample store holding just `samplePattern`. -/
def sampleStore : Store :=
  { patterns := [samplePattern], notes := [], nextId := 5 }

/-- A sample note at step 0, pitch 60, velocity 100. -/
def sampleNote : Note :=
  { id := "n1", pattern_id := "p1", step_index := 0, pitch := 60,
    velocity := 100 }

/-- A sample well-formed one-entry working grid holding `sampleNote`. -/
def sampleGrid : Grid :=
  [(mkKey 0 60, sampleNote)]

/-! ## Grid lemmas -/

theorem gridHas_eq_false {g : Grid} {k : String} :
    gridHas g k = false ↔ ∀ e ∈ g, e.1 ≠ k := by
  rw [← Bool.not_eq_true, gridHas, List.any_eq_true]
  push_neg
  simp [beq_iff_eq]

theorem gridSet_of_has_eq_false {g : Grid} {k : String} (v : Note)
    (h : gridHas g k = false) : gridSet g k v = g ++ [(k, v)] := by
  simp [gridSet, h]

theorem gridHas_append_self (g : Grid) (k : String) (v : Note) :
    gridHas (g ++ [(k, v)]) k = true := by
  simp [gridHas]

theorem gridDelete_append_self (g : Grid) (k : String) (v : Note) :
    gridDelete (g ++ [(k, v)]) k = gridDelete g k := by
  simp [gridDelete, List.filter_append]

theorem gridDelete_eq_self {g : Grid} {k : String} (h : ∀ e ∈ g, e.1 ≠ k) :
    gridDelete g k = g := by
  rw [gridDelete, List.filter_eq_self]
  intro e he
  simpa [bne_iff_ne] using h e he

theorem gridLookup_delete_ne {g : Grid} {k k' : String} (h : k' ≠ k) :
    gridLookup (gridDelete g k) k' = gridLookup g k' := by
  induction g with
  | nil => rfl
  | cons e tl ih =>
      by_cases he : e.1 = k
      · have h1 : (e.1 != k) = false := by simp [he]
        have h2 : (e.1 == k') = false := by
          simp only [beq_eq_false_iff_ne]
          exact fun hk => h (hk.symm.trans he)
        simp only [gridDelete, List.filter_cons, h1, if_false, gridLookup,
          List.find?_cons, h2] at ih ⊢
        exact ih
      · have h1 : (e.1 != k) = true := by simp [he]
        simp only [gridDelete, List.filter_cons, h1, if_true, gridLookup,
          List.find?_cons] at ih ⊢
        cases hpred : (e.1 == k')
        · exact ih
        · rfl

theorem gridLookup_append_ne {g : Grid} {k : String} {v : Note} {k' : String}
    (h : k' ≠ k) : gridLookup (g ++ [(k, v)]) k' = gridLookup g k' := by
  rw [gridLookup, gridLookup, List.find?_append]
  have h1 : List.find? (fun e => e.1 == k') [(k, v)] = none := by
    simp only [List.find?_cons]
    have : ((k, v).1 == k') = false := by
      simp only [beq_eq_false_iff_ne]
      exact fun hk => h hk.symm
    rw [this]
    rfl
  rw [h1]
  cases List.find? (fun e => e.1 == k') g <;> rfl

theorem find?_map_update_self {g : Grid} {k : String} {v : Note}
    (h : gridHas g k = true) :
    List.find? (fun e => e.1 == k) (g.map (fun e => if e.1 == k then (k, v) else e)) =
      some (k, v) := by
  induction g with
  | nil => simp [gridHas] at h
  | cons e tl ih =>
      rw [List.map_cons]
      by_cases he : e.1 = k
      · rw [if_pos (by simp [he]), List.find?_cons_of_pos]
        simp
      · have htl : gridHas tl k = true := by
          simpa [gridHas, List.any_cons, he] using h
        rw [if_neg (by simp [he]), List.find?_cons_of_neg]
        · exact ih htl
        · simp [he]

theorem find?_map_update_ne {g : Grid} {k : String} {v : Note} {k' : String}
    (h : k' ≠ k) :
    List.find? (fun e => e.1 == k') (g.map (fun e => if e.1 == k then (k, v) else e)) =
      List.find? (fun e => e.1 == k') g := by
  induction g with
  | nil => rfl
  | cons e tl ih =>
      rw [List.map_cons]
      by_cases he : e.1 = k
      · have hne : e.1 ≠ k' := by
          rw [he]; exact fun hk => h hk.symm
        rw [if_pos (by simp [he]), List.find?_cons_of_neg, List.find?_cons_of_neg]
        · exact ih
        · simp [hne]
        · simp
          exact fun hk => h hk.symm
      · rw [if_neg (by simp [he])]
        by_cases hk' : e.1 = k'
        · rw [List.find?_cons_of_pos, List.find?_cons_of_pos] <;> simp [hk']
        · rw [List.find?_cons_of_neg, List.find?_cons_of_neg]
          · exact ih
          · simp [hk']
          · simp [hk']

theorem gridLookup_set_self (g : Grid) (k : String) (v : Note) :
    gridLookup (gridSet g k v) k = some v := by
  cases hh : gridHas g k
  · rw [gridSet, hh, if_neg (by simp), gridLookup, List.find?_append]
    have h1 : List.find? (fun e => e.1 == k) g = none := by
      rw [List.find?_eq_none]
      intro e he
      simpa [beq_iff_eq] using gridHas_eq_false.mp hh e he
    rw [h1]
    simp [List.find?_cons]
  · rw [gridSet, hh, if_pos rfl, gridLookup, find?_map_update_self hh]
    rfl

theorem gridLookup_set_ne {g : Grid} {k : String} {v : Note} {k' : String}
    (h : k' ≠ k) : gridLookup (gridSet g k v) k' = gridLookup g k' := by
  cases hh : gridHas g k
  · rw [gridSet, hh, if_neg (by simp)]
    exact gridLookup_append_ne h
  · rw [gridSet, hh, if_pos rfl, gridLookup, find?_map_update_ne h]
    rfl

/-! ## Claim C5: toggling the same cell twice restores the grid -/

/-- C5: toggle is its own inverse on the working grid — for every grid `g`
and every `(step, pitch)` whose key is not present in `g`, applying
`toggleNote` twice at that cell yields a grid equal to `g`. -/
theorem toggleNote_selfInverse (pid : String) (g : Grid) (s : Nat) (p : Int)
    (h : gridHas g (mkKey s p) = false) :
    (toggleNote pid (toggleNote pid g s p).1 s p).1 = g := by
  have hkeys := gridHas_eq_false.mp h
  simp only [toggleNote, h, Bool.false_eq_true, if_false]
  rw [gridSet_of_has_eq_false _ h, gridHas_append_self, if_pos rfl,
    gridDelete_append_self, gridDelete_eq_self hkeys]

/-- Witness for C5: two toggles of cell `(0, 60)` on the empty grid return
it to empty. -/
theorem toggleNote_selfInverse_witness :
    gridHas [] (mkKey 0 60) = false ∧
    (toggleNote "p1" (toggleNote "p1" [] 0 60).1 0 60).1 = [] :=
  ⟨by decide, toggleNote_selfInverse "p1" [] 0 60 (by decide)⟩

/-! ## Claim C6: toggleNote touches only its own key and calls no API -/

/-- C6: `toggleNote` changes only the entry at key
`` `${step}-${pitch}` `` — every other key maps to the same note before and
after — and it performs no backing-store call. -/
theorem toggleNote_frame (pid : String) (g : Grid) (s : Nat) (p : Int) :
    (toggleNote pid g s p).2 = [] ∧
    ∀ k', k' ≠ mkKey s p →
      gridLookup (toggleNote pid g s p).1 k' = gridLookup g k' := by
  constructor
  · rw [toggleNote]
    split <;> rfl
  · intro k' hk
    cases hh : gridHas g (mkKey s p)
    · simp only [toggleNote, hh, Bool.false_eq_true, if_false]
      exact gridLookup_set_ne hk
    · simp only [toggleNote, hh, if_pos rfl]
      exact gridLookup_delete_ne hk

/-- Witness for C6 at a concrete grid, cell and other key. -/
theorem toggleNote_frame_witness :
    (toggleNote "p1" [] 0 60).2 = [] ∧
    gridLookup (toggleNote "p1" [] 0 60).1 "1-61" = gridLookup [] "1-61" :=
  ⟨(toggleNote_frame "p1" [] 0 60).1,
   (toggleNote_frame "p1" [] 0 60).2 "1-61" (by decide)⟩

/-! ## Claim C9: inserted notes are always the velocity-100 "temp" note -/

/-- C9: any entry of the grid after `toggleNote` is either an entry that
was already present, or the placeholder note with identity `"temp"`,
velocity `100`, the toggled cell's coordinates and the selected pattern's
id — so every note `toggleNote` inserts has exactly that shape, whatever
the prior grid contents. -/
theorem toggleNote_inserts_temp (pid : String) (g : Grid) (s : Nat) (p : Int)
    (e : String × Note) (he : e ∈ (toggleNote pid g s p).1) :
    e ∈ g ∨ e = (mkKey s p,
      { id := "temp", pattern_id := pid, step_index := s, pitch := p,
        velocity := 100 }) := by
  cases hh : gridHas g (mkKey s p)
  · rw [toggleNote] at he
    simp only [hh, Bool.false_eq_true, if_false] at he
    rw [gridSet_of_has_eq_false _ hh] at he
    rcases List.mem_append.mp he with h1 | h1
    · exact Or.inl h1
    · right
      simpa using h1
  · rw [toggleNote] at he
    simp only [hh, if_pos rfl] at he
    exact Or.inl (List.mem_of_mem_filter he)

/-- Witness for C9: toggling cell `(0, 60)` on the empty grid produces
exactly the `"temp"` placeholder with velocity 100. -/
theorem toggleNote_inserts_temp_witness :
    ((mkKey 0 60,
       ({ id := "temp", pattern_id := "p1", step_index := 0, pitch := 60,
          velocity := 100 } : Note)) ∈ (toggleNote "p1" [] 0 60).1) ∧
    ((mkKey 0 60,
       ({ id := "temp", pattern_id := "p1", step_index := 0, pitch := 60,
          velocity := 100 } : Note)) ∈ ([] : Grid) ∨
     (mkKey 0 60,
       ({ id := "temp", pattern_id := "p1", step_index := 0, pitch := 60,
          velocity := 100 } : Note)) = (mkKey 0 60,
       ({ id := "temp", pattern_id := "p1", step_index := 0, pitch := 60,
          velocity := 100 } : Note))) :=
  ⟨by decide,
   toggleNote_inserts_temp "p1" [] 0 60 _ (by decide)⟩

/-! ## Claim C3: getPatternAtCell finds exactly the covering pattern -/

/-- C3: `getPatternAtCell` returns at most one pattern (it is an `Option`);
any pattern it returns belongs to the scanned list, lies on the queried
track and its half-open range `[start_bar, start_bar + length_bars)`
contains the queried bar; and it returns `none` exactly when no such
pattern exists. -/
theorem getPatternAtCell_correct (ps : List Pattern) (tid : String) (bar : Nat) :
    (∀ p, getPatternAtCell ps tid bar = some p →
      p ∈ ps ∧ p.track_id = tid ∧ p.start_bar ≤ bar ∧
        bar < p.start_bar + p.length_bars) ∧
    (getPatternAtCell ps tid bar = none ↔
      ∀ p ∈ ps, ¬(p.track_id = tid ∧ p.start_bar ≤ bar ∧
        bar < p.start_bar + p.length_bars)) := by
  constructor
  · intro p hp
    have h1 := List.find?_some hp
    have h2 := List.mem_of_find?_eq_some hp
    simp only [Bool.and_eq_true, beq_iff_eq, decide_eq_true_eq] at h1
    exact ⟨h2, h1.1.1, h1.1.2, h1.2⟩
  · rw [getPatternAtCell, List.find?_eq_none]
    constructor
    · intro hall p hp hcon
      exact hall p hp (by simp [hcon.1, hcon.2.1, hcon.2.2])
    · intro hall p hp hcon
      simp only [Bool.and_eq_true, beq_iff_eq, decide_eq_true_eq] at hcon
      exact hall p hp ⟨hcon.1.1, hcon.1.2, hcon.2⟩

/-- Witness for C3 on a concrete pattern list: bar 3 is inside
`samplePattern`'s range `[2, 4)` and is found. -/
theorem getPatternAtCell_correct_witness :
    samplePattern ∈ [samplePattern] ∧ samplePattern.track_id = "t1" ∧
    samplePattern.start_bar ≤ 3 ∧
    3 < samplePattern.start_bar + samplePattern.length_bars :=
  (getPatternAtCell_correct [samplePattern] "t1" 3).1 samplePattern (by decide)

/-! ## Claim C1 (corrected): cell clicks select only on exact start-bar match -/

/-- Counterexample to C1 as stated: with a single pattern occupying the bar
range `[2, 4)` on track `t1`, clicking bar 3 — which the pattern's range
contains — does not select that pattern: the handler's lookup compares
`start_bar` with the clicked bar for equality, finds nothing, and issues a
pattern-creation request instead. -/
theorem handleCellClick_range_select_false :
    samplePattern.start_bar ≤ 3 ∧
    3 < samplePattern.start_bar + samplePattern.length_bars ∧
    samplePattern ∈ sampleStore.patterns ∧
    samplePattern.track_id = sampleTrack.id ∧
    (handleCellClick sampleStore sampleTrack 3).selectedPattern ≠
      some samplePattern ∧
    (handleCellClick sampleStore sampleTrack 3).calls ≠ [] := by
  decide

/-- C1 as amended: the grid-click handler selects an existing pattern
exactly when some pattern of the clicked track has `start_bar` equal to
the clicked bar — selecting it without any backing-store call and leaving
the store unchanged — and otherwise (even when the bar lies strictly
inside an existing pattern's range) it issues a creation request for a new
pattern at that bar. -/
theorem handleCellClick_startBar_select (st : Store) (track : Track) (bar : Nat) :
    (∀ p, st.patterns.find?
        (fun q => q.track_id == track.id && q.start_bar == bar) = some p →
      handleCellClick st track bar = ⟨st, some p, []⟩) ∧
    (st.patterns.find?
        (fun q => q.track_id == track.id && q.start_bar == bar) = none →
      (handleCellClick st track bar).calls =
        [ApiCall.createPattern track.id
          { name := "Pattern " ++ toString (bar + 1), length_bars := 2,
            start_bar := bar }]) := by
  constructor
  · intro p hp
    rw [handleCellClick, hp]
  · intro hp
    simp only [handleCellClick, hp]
    cases addPattern st track.id
        { name := "Pattern " ++ toString (bar + 1), length_bars := 2,
          start_bar := bar } <;> rfl

/-- Witness for the amended C1: with a pattern starting exactly at the
clicked bar, the handler selects it and issues no call. -/
theorem handleCellClick_startBar_select_witness :
    handleCellClick sampleStore sampleTrack 2 =
      ⟨sampleStore, some samplePattern, []⟩ :=
  (handleCellClick_startBar_select sampleStore sampleTrack 2).1
    samplePattern (by decide)

/-! ## Store lemmas -/

theorem addPattern_ok {st : Store} {tid : String} {req : PatternCreate}
    {st' : Store} {p : Pattern} (h : addPattern st tid req = .ok (st', p)) :
    p.track_id = tid ∧ p.name = req.name ∧ p.length_bars = req.length_bars ∧
    p.start_bar = req.start_bar ∧ st'.patterns = st.patterns ++ [p] ∧
    ∀ q ∈ st.patterns, ¬(q.track_id = tid ∧
      rangesIntersect req.start_bar req.length_bars q.start_bar q.length_bars
        = true) := by
  rw [addPattern] at h
  cases hf : st.patterns.find? (fun q => q.track_id == tid &&
      rangesIntersect req.start_bar req.length_bars q.start_bar q.length_bars) with
  | some q => rw [hf] at h; exact absurd h (by simp)
  | none =>
      rw [hf] at h
      simp only [Except.ok.injEq, Prod.mk.injEq] at h
      obtain ⟨hst, hp⟩ := h
      subst hp
      subst hst
      refine ⟨rfl, rfl, rfl, rfl, rfl, ?_⟩
      intro q hq hcon
      have := List.find?_eq_none.mp hf q hq
      simp only [Bool.and_eq_true, beq_iff_eq] at this
      exact this ⟨hcon.1, hcon.2⟩

theorem runReplaceNotes_patterns (st : Store) (pid : String)
    (nl : List NoteCreate) : (runReplaceNotes st pid nl).1.patterns = st.patterns := by
  rw [runReplaceNotes, replaceNotes]
  cases nl.all validNoteCreate <;> rfl

/-! ## Claim C4: created patterns take the clicked bar, default length 2 and name -/

/-- C4: when the handler's lookup finds no existing pattern at the clicked
(track, bar), the grid-click handler issues exactly one creation request
with `start_bar` the clicked bar, `length_bars` the fixed default 2, and
name `"Pattern {bar+1}"`; any pattern it then selects carries exactly
those fields. -/
theorem handleCellClick_creates_default (st : Store) (track : Track) (bar : Nat)
    (h : st.patterns.find?
      (fun q => q.track_id == track.id && q.start_bar == bar) = none) :
    (handleCellClick st track bar).calls =
      [ApiCall.createPattern track.id
        { name := "Pattern " ++ toString (bar + 1), length_bars := 2,
          start_bar := bar }] ∧
    ∀ p, (handleCellClick st track bar).selectedPattern = some p →
      p.start_bar = bar ∧ p.length_bars = 2 ∧
      p.name = "Pattern " ++ toString (bar + 1) := by
  constructor
  · simp only [handleCellClick, h]
    cases addPattern st track.id
        { name := "Pattern " ++ toString (bar + 1), length_bars := 2,
          start_bar := bar } <;> rfl
  · intro p hp
    simp only [handleCellClick, h] at hp
    cases ha : addPattern st track.id
        { name := "Pattern " ++ toString (bar + 1), length_bars := 2,
          start_bar := bar } with
    | ok r =>
        rw [ha] at hp
        simp only [Option.some.injEq] at hp
        subst hp
        have hr : addPattern st track.id
            { name := "Pattern " ++ toString (bar + 1), length_bars := 2,
              start_bar := bar } = .ok (r.1, r.2) := by rw [ha]
        obtain ⟨-, hname, hlen, hstart, -, -⟩ := addPattern_ok hr
        exact ⟨hstart, hlen, hname⟩
    | error e =>
        rw [ha] at hp
        exact absurd hp (by simp)

/-- Witness for C4: clicking bar 2 on an empty store creates
`Pattern(start=2, length=2, name="Pattern 3")`. -/
theorem handleCellClick_creates_default_witness :
    (handleCellClick ⟨[], [], 0⟩ sampleTrack 2).calls =
      [ApiCall.createPattern sampleTrack.id
        { name := "Pattern " ++ toString (2 + 1), length_bars := 2,
          start_bar := 2 }] ∧
    ∀ p, (handleCellClick ⟨[], [], 0⟩ sampleTrack 2).selectedPattern = some p →
      p.start_bar = 2 ∧ p.length_bars = 2 ∧
      p.name = "Pattern " ++ toString (2 + 1) :=
  handleCellClick_creates_default ⟨[], [], 0⟩ sampleTrack 2 (by decide)

/-! ## Claim C2: no two patterns on a track ever overlap -/

theorem rangesIntersect_comm (s1 l1 s2 l2 : Nat) :
    rangesIntersect s1 l1 s2 l2 = rangesIntersect s2 l2 s1 l1 := by
  rw [rangesIntersect, rangesIntersect, Nat.max_comm, Nat.min_comm]

theorem addPattern_preserves_noOverlaps {st : Store} {tid : String}
    {req : PatternCreate} {st' : Store} {p : Pattern}
    (hwf : NoOverlaps st.patterns) (h : addPattern st tid req = .ok (st', p)) :
    NoOverlaps st'.patterns := by
  obtain ⟨htrack, -, hlen, hstart, hpats, hnone⟩ := addPattern_ok h
  rw [hpats]
  intro p1 hp1 p2 hp2 hsame hne
  rcases List.mem_append.mp hp1 with h1 | h1 <;>
    rcases List.mem_append.mp hp2 with h2 | h2
  · exact hwf p1 h1 p2 h2 hsame hne
  · have hp2p : p2 = p := by simpa using h2
    subst hp2p
    have htid : p1.track_id = tid := hsame.trans htrack
    cases hco : rangesIntersect p1.start_bar p1.length_bars p2.start_bar
        p2.length_bars
    · rfl
    · rw [hstart, hlen, rangesIntersect_comm] at hco
      exact absurd ⟨htid, hco⟩ (hnone p1 h1)
  · have hp1p : p1 = p := by simpa using h1
    subst hp1p
    have htid : p2.track_id = tid := hsame.symm.trans htrack
    cases hco : rangesIntersect p1.start_bar p1.length_bars p2.start_bar
        p2.length_bars
    · rfl
    · rw [hstart, hlen] at hco
      exact absurd ⟨htid, hco⟩ (hnone p2 h2)
  · have hp1p : p1 = p := by simpa using h1
    have hp2p : p2 = p := by simpa using h2
    exact absurd (hp1p.trans hp2p.symm) hne

theorem handleCellClick_preserves_noOverlaps {st : Store} (track : Track)
    (bar : Nat) (hwf : NoOverlaps st.patterns) :
    NoOverlaps (handleCellClick st track bar).store.patterns := by
  cases hf : st.patterns.find?
      (fun p => p.track_id == track.id && p.start_bar == bar) with
  | some p =>
      simp only [handleCellClick, hf]
      exact hwf
  | none =>
      simp only [handleCellClick, hf]
      cases ha : addPattern st track.id
          { name := "Pattern " ++ toString (bar + 1), length_bars := 2,
            start_bar := bar } with
      | ok r =>
          obtain ⟨st2, p2⟩ := r
          simp only [ha]
          exact addPattern_preserves_noOverlaps hwf ha
      | error e =>
          simp only [ha]
          exact hwf

/-- C2: the non-overlap invariant is preserved by every mutating operation
of the model — the grid-click path (`handleCellClick`), direct pattern
creation (`addPattern`), and bulk note replacement (`replaceNotes`) — and
under it a bar of a track is covered by at most one pattern. -/
theorem mutations_preserve_noOverlaps (st : Store) (track : Track) (bar : Nat)
    (tid : String) (req : PatternCreate) (pid : String) (nl : List NoteCreate)
    (hwf : NoOverlaps st.patterns) :
    NoOverlaps (handleCellClick st track bar).store.patterns ∧
    (∀ st' p, addPattern st tid req = .ok (st', p) → NoOverlaps st'.patterns) ∧
    NoOverlaps (runReplaceNotes st pid nl).1.patterns ∧
    (∀ p1 ∈ st.patterns, ∀ p2 ∈ st.patterns, p1.track_id = p2.track_id →
      p1.start_bar ≤ bar → bar < p1.start_bar + p1.length_bars →
      p2.start_bar ≤ bar → bar < p2.start_bar + p2.length_bars → p1 = p2) := by
  refine ⟨handleCellClick_preserves_noOverlaps track bar hwf,
    fun st' p h => addPattern_preserves_noOverlaps hwf h, ?_, ?_⟩
  · rw [runReplaceNotes_patterns]
    exact hwf
  · intro p1 hp1 p2 hp2 hsame hs1 he1 hs2 he2
    by_contra hne
    have := hwf p1 hp1 p2 hp2 hsame hne
    rw [rangesIntersect] at this
    simp only [decide_eq_false_iff_not, not_lt] at this
    omega

/-- Witness for C2 starting from the concrete one-pattern store, which
satisfies the invariant. -/
theorem mutations_preserve_noOverlaps_witness :
    NoOverlaps (handleCellClick sampleStore sampleTrack 3).store.patterns ∧
    (∀ st' p, addPattern sampleStore "t1"
        { name := "Pattern 5", length_bars := 2, start_bar := 4 } = .ok (st', p) →
      NoOverlaps st'.patterns) ∧
    NoOverlaps (runReplaceNotes sampleStore "p1" []).1.patterns ∧
    (∀ p1 ∈ sampleStore.patterns, ∀ p2 ∈ sampleStore.patterns,
      p1.track_id = p2.track_id →
      p1.start_bar ≤ 3 → 3 < p1.start_bar + p1.length_bars →
      p2.start_bar ≤ 3 → 3 < p2.start_bar + p2.length_bars → p1 = p2) :=
  mutations_preserve_noOverlaps sampleStore sampleTrack 3 "t1"
    { name := "Pattern 5", length_bars := 2, start_bar := 4 } "p1" []
    (by intro p1 hp1 p2 hp2 hsame hne
        simp only [sampleStore, List.mem_singleton] at hp1 hp2
        exact absurd (hp1.trans hp2.symm) hne)

/-! ## Claim C8: replaceNotes validates before mutating, all-or-nothing -/

/-- C8: whenever any supplied entry has `step_index` outside
`[0, STEPS_PER_PATTERN)` or `velocity` outside `[0, 127]`, the
replace-notes request fails with `ValidationError` and the store — in
particular the addressed pattern's stored note set — is unchanged. -/
theorem replaceNotes_validation (st : Store) (pid : String)
    (nl : List NoteCreate)
    (h : ∃ nc ∈ nl, STEPS_PER_PATTERN ≤ nc.step_index ∨ nc.velocity < 0 ∨
      127 < nc.velocity) :
    (runReplaceNotes st pid nl).2 = .error .ValidationError ∧
    (runReplaceNotes st pid nl).1 = st ∧
    getNotes (runReplaceNotes st pid nl).1 pid = getNotes st pid := by
  obtain ⟨nc, hmem, hbad⟩ := h
  have hall : nl.all validNoteCreate = false := by
    cases hcase : nl.all validNoteCreate
    · rfl
    · have := List.all_eq_true.mp hcase nc hmem
      rw [validNoteCreate] at this
      simp only [Bool.and_eq_true, decide_eq_true_eq] at this
      omega
  rw [runReplaceNotes, replaceNotes, hall]
  exact ⟨rfl, rfl, rfl⟩

/-- Witness for C8: an entry with velocity 200 is rejected and the sample
store keeps its (empty) note set. -/
theorem replaceNotes_validation_witness :
    (runReplaceNotes sampleStore "p1"
        [{ pattern_id := "p1", step_index := 0, pitch := 60,
           velocity := 200 }]).2 = .error .ValidationError ∧
    (runReplaceNotes sampleStore "p1"
        [{ pattern_id := "p1", step_index := 0, pitch := 60,
           velocity := 200 }]).1 = sampleStore ∧
    getNotes (runReplaceNotes sampleStore "p1"
        [{ pattern_id := "p1", step_index := 0, pitch := 60,
           velocity := 200 }]).1 "p1" = getNotes sampleStore "p1" :=
  replaceNotes_validation sampleStore "p1"
    [{ pattern_id := "p1", step_index := 0, pitch := 60, velocity := 200 }]
    ⟨{ pattern_id := "p1", step_index := 0, pitch := 60, velocity := 200 },
      by decide, by decide⟩

/-! ## Round-trip machinery for C7 -/

theorem replaceNotes_ok_of_all {st : Store} {pid : String} {nl : List NoteCreate}
    (hall : nl.all validNoteCreate = true) :
    replaceNotes st pid nl = .ok
      ({ st with
          notes := st.notes.filter (fun n => n.pattern_id != pid) ++
            assignNoteIds st.nextId pid nl,
          nextId := st.nextId + nl.length },
        assignNoteIds st.nextId pid nl) := by
  rw [replaceNotes, hall]
  rfl

theorem assignNoteIds_pattern_id (b : Nat) (pid : String) (l : List NoteCreate) :
    ∀ n ∈ assignNoteIds b pid l, n.pattern_id = pid := by
  intro n hn
  rw [assignNoteIds, List.mem_map] at hn
  obtain ⟨e, -, rfl⟩ := hn
  rfl

theorem assignNoteIds_map_key (b : Nat) (pid : String) (l : List NoteCreate) :
    (assignNoteIds b pid l).map noteKey =
      l.map (fun nc => mkKey nc.step_index nc.pitch) := by
  rw [assignNoteIds, List.map_map]
  have : (noteKey ∘ fun e : Nat × NoteCreate =>
      ({ id := "note-" ++ toString (b + e.1), pattern_id := pid,
         step_index := e.2.step_index, pitch := e.2.pitch,
         velocity := e.2.velocity } : Note)) =
      (fun nc => mkKey nc.step_index nc.pitch) ∘ Prod.snd := rfl
  rw [this, ← List.map_map, List.enum_map_snd]

theorem assignNoteIds_map_triple (b : Nat) (pid : String) (l : List NoteCreate) :
    (assignNoteIds b pid l).map (fun n => (n.step_index, n.pitch, n.velocity)) =
      l.map (fun nc => (nc.step_index, nc.pitch, nc.velocity)) := by
  rw [assignNoteIds, List.map_map]
  have : ((fun n : Note => (n.step_index, n.pitch, n.velocity)) ∘
      fun e : Nat × NoteCreate =>
      ({ id := "note-" ++ toString (b + e.1), pattern_id := pid,
         step_index := e.2.step_index, pitch := e.2.pitch,
         velocity := e.2.velocity } : Note)) =
      (fun nc : NoteCreate => (nc.step_index, nc.pitch, nc.velocity)) ∘
        Prod.snd := rfl
  rw [this, ← List.map_map, List.enum_map_snd]

theorem filter_ne_then_eq (ns : List Note) (pid : String) :
    (ns.filter (fun n => n.pattern_id != pid)).filter
      (fun n => n.pattern_id == pid) = [] := by
  rw [List.filter_filter]
  apply List.filter_eq_nil_iff.mpr
  intro n hn
  cases h : (n.pattern_id == pid) <;> simp [bne, h]

theorem gridHas_eq_false_of_not_mem_keys {g : Grid} {k : String}
    (h : k ∉ g.map Prod.fst) : gridHas g k = false :=
  gridHas_eq_false.mpr (fun _ he hek => h (hek ▸ List.mem_map_of_mem _ he))

theorem foldl_gridSet_eq (l : List Note) (acc : Grid)
    (h : (acc.map Prod.fst ++ l.map noteKey).Nodup) :
    l.foldl (fun m n => gridSet m (mkKey n.step_index n.pitch) n) acc =
      acc ++ l.map (fun n => (noteKey n, n)) := by
  induction l generalizing acc with
  | nil => simp
  | cons n tl ih =>
      rw [List.foldl_cons]
      have hk : noteKey n ∉ acc.map Prod.fst := by
        rw [List.map_cons] at h
        intro hmem
        exact (List.nodup_append.mp h).2.2 hmem (List.mem_cons_self _ _)
      have hhas : gridHas acc (noteKey n) = false :=
        gridHas_eq_false_of_not_mem_keys hk
      have hset : gridSet acc (mkKey n.step_index n.pitch) n =
          acc ++ [(noteKey n, n)] := gridSet_of_has_eq_false _ hhas
      have hnd2 : ((acc ++ [(noteKey n, n)]).map Prod.fst ++
          tl.map noteKey).Nodup := by
        rw [List.map_cons] at h
        simpa using h
      rw [hset, ih (acc ++ [(noteKey n, n)]) hnd2, List.map_cons,
        List.append_assoc, List.singleton_append]

theorem buildNoteGrid_eq_of_nodup {l : List Note}
    (h : (l.map noteKey).Nodup) :
    buildNoteGrid l = l.map (fun n => (noteKey n, n)) := by
  have := foldl_gridSet_eq l [] (by simpa using h)
  simpa [buildNoteGrid] using this

theorem gridValues_map_pair (l : List Note) :
    gridValues (l.map (fun n => (noteKey n, n))) = l := by
  rw [gridValues, List.map_map]
  exact List.map_id l

theorem load_after_replace (st : Store) (pid : String) (nl : List NoteCreate)
    (hnd : (nl.map (fun nc => mkKey nc.step_index nc.pitch)).Nodup) :
    gridTriples (loadPatternNotes
      { st with
          notes := st.notes.filter (fun n => n.pattern_id != pid) ++
            assignNoteIds st.nextId pid nl,
          nextId := st.nextId + nl.length } pid) =
      nl.map (fun nc => (nc.step_index, nc.pitch, nc.velocity)) := by
  rw [loadPatternNotes, getNotes]
  rw [List.filter_append, filter_ne_then_eq, List.nil_append]
  have hfresh : (assignNoteIds st.nextId pid nl).filter
      (fun n => n.pattern_id == pid) = assignNoteIds st.nextId pid nl := by
    apply List.filter_eq_self.mpr
    intro n hn
    simp [beq_iff_eq, assignNoteIds_pattern_id st.nextId pid nl n hn]
  rw [hfresh]
  have hkeys : ((assignNoteIds st.nextId pid nl).map noteKey).Nodup := by
    rw [assignNoteIds_map_key]
    exact hnd
  rw [buildNoteGrid_eq_of_nodup hkeys, gridTriples, gridValues_map_pair,
    assignNoteIds_map_triple]

/-! ## Claim C7: commit-then-load round trip preserves the triples -/

/-- C7: for a well-formed working grid (each entry keyed by its own note's
step and pitch, keys unique — as produced by `loadPatternNotes` and
`toggleNote`) whose notes pass validation, loading the pattern's notes
after committing the grid through `handleSaveNotes` yields exactly the
`(step_index, pitch, velocity)` triples that were present in the grid at
commit time — no triple missing and none added. -/
theorem commit_load_roundTrip (st : Store) (pid : String) (g : Grid)
    (hwf : WFGrid g) (hnd : (g.map Prod.fst).Nodup)
    (hval : ∀ n ∈ gridValues g, n.step_index < STEPS_PER_PATTERN ∧
      0 ≤ n.velocity ∧ n.velocity ≤ 127) :
    gridTriples (loadPatternNotes (handleSaveNotes st pid g).1 pid) =
      gridTriples g := by
  have hall : ((gridValues g).map (fun note =>
      ({ pattern_id := pid, step_index := note.step_index, pitch := note.pitch,
         velocity := note.velocity } : NoteCreate))).all validNoteCreate
        = true := by
    rw [List.all_eq_true]
    intro nc hnc
    rw [List.mem_map] at hnc
    obtain ⟨n, hn, rfl⟩ := hnc
    obtain ⟨h1, h2, h3⟩ := hval n hn
    rw [validNoteCreate]
    simp only [Bool.and_eq_true, decide_eq_true_eq]
    exact ⟨⟨h1, h2⟩, h3⟩
  have hsave : (handleSaveNotes st pid g).1 =
      { st with
          notes := st.notes.filter (fun n => n.pattern_id != pid) ++
            assignNoteIds st.nextId pid ((gridValues g).map (fun note =>
              ({ pattern_id := pid, step_index := note.step_index,
                 pitch := note.pitch,
                 velocity := note.velocity } : NoteCreate))),
          nextId := st.nextId + ((gridValues g).map (fun note =>
              ({ pattern_id := pid, step_index := note.step_index,
                 pitch := note.pitch,
                 velocity := note.velocity } : NoteCreate))).length } := by
    simp only [handleSaveNotes]
    rw [replaceNotes_ok_of_all hall]
  rw [hsave, load_after_replace]
  · rw [List.map_map, gridTriples]
    rfl
  · rw [List.map_map]
    have hcomp : ((fun nc : NoteCreate => mkKey nc.step_index nc.pitch) ∘
        fun note : Note =>
        ({ pattern_id := pid, step_index := note.step_index,
           pitch := note.pitch,
           velocity := note.velocity } : NoteCreate)) =
        fun n : Note => noteKey n := rfl
    rw [hcomp]
    have h2 : (gridValues g).map (fun n : Note => noteKey n) =
        g.map Prod.fst := by
      rw [gridValues, List.map_map]
      exact List.map_congr_left (fun e he => (hwf e he).symm)
    rw [h2]
    exact hnd

/-- Witness for C7 on the concrete one-note grid `sampleGrid`. -/
theorem commit_load_roundTrip_witness :
    gridTriples (loadPatternNotes
        (handleSaveNotes sampleStore "p1" sampleGrid).1 "p1") =
      gridTriples sampleGrid :=
  commit_load_roundTrip sampleStore "p1" sampleGrid
    (by unfold WFGrid; decide) (by decide) (by decide)

/-! ## Injectivity of the composite string key

The grid key is the template string `` `${step_index}-${pitch}` ``.  The
following development proves that distinct `(step, pitch)` pairs always
produce distinct key strings: the decimal digits of a natural number
contain no minus sign, so the first `'-'` after the leading digit block
separates the two components unambiguously. -/

theorem padRep_step {n : Nat} (hdiv : n / 10 ≠ 0) :
    padRep n = padRep (n / 10) ++ [Nat.digitChar (n % 10)] := by
  have hn0 : n ≠ 0 := by
    intro h0
    subst h0
    exact hdiv rfl
  rw [padRep, padRep, if_neg hn0, if_neg hdiv,
    Nat.digits_def' (by omega : (1:Nat) < 10) (Nat.pos_of_ne_zero hn0)]
  simp

theorem toDigitsCore_eq : ∀ (f n : Nat) (ds : List Char), n < 10 ^ f → 0 < f →
    Nat.toDigitsCore 10 f n ds = padRep n ++ ds := by
  intro f
  induction f with
  | zero => intro n ds h hf; exact absurd hf (by omega)
  | succ f ih =>
      intro n ds h _
      rw [Nat.toDigitsCore]
      by_cases hdiv : n / 10 = 0
      · rw [if_pos hdiv]
        have hn : n < 10 := by omega
        by_cases h0 : n = 0
        · subst h0
          rfl
        · have hdig : Nat.digits 10 n = [n] := by
            rw [Nat.digits_def' (by omega : (1:Nat) < 10) (Nat.pos_of_ne_zero h0),
              Nat.mod_eq_of_lt hn, hdiv]
            simp
          rw [padRep, if_neg h0, hdig, Nat.mod_eq_of_lt hn]
          rfl
      · rw [if_neg hdiv]
        have h10 : 10 ≤ n := by omega
        have hf1 : 0 < f := by
          by_contra hc
          have hf0 : f = 0 := by omega
          subst hf0
          simp at h
          omega
        have hlt : n / 10 < 10 ^ f := by
          rw [Nat.div_lt_iff_lt_mul (by omega : (0:Nat) < 10)]
          calc n < 10 ^ (f + 1) := h
          _ = 10 ^ f * 10 := by ring
        rw [ih (n / 10) (Nat.digitChar (n % 10) :: ds) hlt hf1,
          padRep_step hdiv, List.append_assoc, List.singleton_append]

theorem natRepr_data (n : Nat) : (Nat.repr n).data = padRep n := by
  rw [Nat.repr, Nat.toDigits]
  have h1 : n < 10 ^ (n + 1) := by
    calc n < 2 ^ n := Nat.lt_two_pow n
    _ ≤ 10 ^ n := Nat.pow_le_pow_left (by omega) n
    _ ≤ 10 ^ (n + 1) := Nat.pow_le_pow_right (by omega) (by omega)
  rw [toDigitsCore_eq (n + 1) n [] h1 (by omega)]
  simp [List.asString]

theorem digitVal_digitChar {d : Nat} (h : d < 10) :
    digitVal (Nat.digitChar d) = d := by
  interval_cases d <;> rfl

theorem digitChar_isDigit {d : Nat} (h : d < 10) :
    (Nat.digitChar d).isDigit = true := by
  interval_cases d <;> rfl

theorem padRep_ne_nil (n : Nat) : padRep n ≠ [] := by
  rw [padRep]
  by_cases h0 : n = 0
  · simp [h0]
  · rw [if_neg h0]
    simp only [ne_eq, List.reverse_eq_nil_iff, List.map_eq_nil_iff]
    exact Nat.digits_ne_nil_iff_ne_zero.mpr h0

theorem padRep_digits (n : Nat) : ∀ c ∈ padRep n, c.isDigit = true := by
  rw [padRep]
  by_cases h0 : n = 0
  · simp [h0]
  · rw [if_neg h0]
    intro c hc
    rw [List.mem_reverse, List.mem_map] at hc
    obtain ⟨d, hd, rfl⟩ := hc
    exact digitChar_isDigit (Nat.digits_lt_base (by omega) hd)

theorem map_digitChar_digits_inj {m n : Nat}
    (h2 : (Nat.digits 10 m).map Nat.digitChar =
      (Nat.digits 10 n).map Nat.digitChar) : m = n := by
  have hmm := congrArg (List.map digitVal) h2
  rw [List.map_map, List.map_map] at hmm
  have e1 : (Nat.digits 10 m).map (digitVal ∘ Nat.digitChar) = Nat.digits 10 m :=
    (List.map_congr_left (fun d hd => digitVal_digitChar
      (Nat.digits_lt_base (by omega) hd))).trans (List.map_id _)
  have e2 : (Nat.digits 10 n).map (digitVal ∘ Nat.digitChar) = Nat.digits 10 n :=
    (List.map_congr_left (fun d hd => digitVal_digitChar
      (Nat.digits_lt_base (by omega) hd))).trans (List.map_id _)
  rw [e1, e2] at hmm
  have := congrArg (Nat.ofDigits 10) hmm
  rwa [Nat.ofDigits_digits, Nat.ofDigits_digits] at this

theorem eq_zero_of_map_digitChar {n : Nat}
    (h : (Nat.digits 10 n).map Nat.digitChar = ['0']) : n = 0 := by
  cases hds : Nat.digits 10 n with
  | nil =>
      rw [hds] at h
      simp at h
  | cons a tl =>
      rw [hds] at h
      simp only [List.map_cons] at h
      injection h with ha htl
      have ha10 : a < 10 := Nat.digits_lt_base (by omega)
        (by rw [hds]; exact List.mem_cons_self _ _)
      have ha0 : a = 0 := by
        have h2 := congrArg digitVal ha
        rw [digitVal_digitChar ha10] at h2
        simpa [digitVal] using h2
      have htl0 : tl = [] := by simpa using htl
      subst ha0
      subst htl0
      have h3 := Nat.ofDigits_digits 10 n
      rw [hds] at h3
      simpa [Nat.ofDigits] using h3.symm

theorem padRep_injective {m n : Nat} (h : padRep m = padRep n) : m = n := by
  by_cases hm : m = 0 <;> by_cases hn : n = 0
  · omega
  · exfalso
    rw [padRep, if_pos hm, padRep, if_neg hn] at h
    have hrev : (Nat.digits 10 n).map Nat.digitChar = ['0'] := by
      have := congrArg List.reverse h
      simpa using this.symm
    exact hn (eq_zero_of_map_digitChar hrev)
  · exfalso
    rw [padRep, if_neg hm, padRep, if_pos hn] at h
    have hrev : (Nat.digits 10 m).map Nat.digitChar = ['0'] := by
      have := congrArg List.reverse h
      simpa using this
    exact hm (eq_zero_of_map_digitChar hrev)
  · rw [padRep, if_neg hm, padRep, if_neg hn] at h
    exact map_digitChar_digits_inj (by
      have := congrArg List.reverse h
      simpa using this)

theorem intStr_data (i : Int) : (toString i).data = intChars i := by
  cases i with
  | ofNat m => rfl
  | negSucc m => rfl

theorem natRepr_data_inj {m n : Nat}
    (h : (Nat.repr m).data = (Nat.repr n).data) : m = n := by
  apply padRep_injective
  rw [← natRepr_data, ← natRepr_data, h]

theorem natRepr_data_digits (n : Nat) :
    ∀ c ∈ (Nat.repr n).data, c.isDigit = true := by
  rw [natRepr_data]
  exact padRep_digits n

theorem natRepr_data_ne_nil (n : Nat) : (Nat.repr n).data ≠ [] := by
  rw [natRepr_data]
  exact padRep_ne_nil n

theorem sep_not_mem_natRepr (n : Nat) : '-' ∉ (Nat.repr n).data := by
  intro hm
  have := natRepr_data_digits n '-' hm
  simp at this

theorem intChars_inj {i j : Int} (h : intChars i = intChars j) : i = j := by
  cases i with
  | ofNat m =>
      cases j with
      | ofNat k =>
          rw [intChars, intChars] at h
          rw [natRepr_data_inj h]
      | negSucc k =>
          rw [intChars, intChars] at h
          exfalso
          cases hd : (Nat.repr m).data with
          | nil => exact natRepr_data_ne_nil m hd
          | cons c tl =>
              rw [hd] at h
              injection h with hc htl
              have : c.isDigit = true :=
                natRepr_data_digits m c (by rw [hd]; exact List.mem_cons_self _ _)
              rw [hc] at this
              simp at this
  | negSucc m =>
      cases j with
      | ofNat k =>
          rw [intChars, intChars] at h
          exfalso
          cases hd : (Nat.repr k).data with
          | nil => exact natRepr_data_ne_nil k hd
          | cons c tl =>
              rw [hd] at h
              injection h with hc htl
              have : c.isDigit = true :=
                natRepr_data_digits k c (by rw [hd]; exact List.mem_cons_self _ _)
              rw [← hc] at this
              simp at this
      | negSucc k =>
          rw [intChars, intChars] at h
          injection h with hc htl
          have := natRepr_data_inj htl
          have hk : m = k := by omega
          rw [hk]

theorem append_cons_sep_inj {sep : Char} :
    ∀ {a₁ a₂ r₁ r₂ : List Char}, a₁ ++ sep :: r₁ = a₂ ++ sep :: r₂ →
    sep ∉ a₁ → sep ∉ a₂ → a₁ = a₂ ∧ r₁ = r₂ := by
  intro a₁
  induction a₁ with
  | nil =>
      intro a₂ r₁ r₂ h h₁ h₂
      cases a₂ with
      | nil => simpa using h
      | cons b tb =>
          rw [List.nil_append, List.cons_append] at h
          injection h with hb htl
          exact absurd (hb ▸ List.mem_cons_self b tb) h₂
  | cons c tc ih =>
      intro a₂ r₁ r₂ h h₁ h₂
      cases a₂ with
      | nil =>
          rw [List.nil_append, List.cons_append] at h
          injection h with hc htl
          exact absurd (hc ▸ List.mem_cons_self c tc) h₁
      | cons b tb =>
          rw [List.cons_append, List.cons_append] at h
          injection h with hcb htail
          have hr := ih htail (fun hm => h₁ (List.mem_cons_of_mem _ hm))
            (fun hm => h₂ (List.mem_cons_of_mem _ hm))
          exact ⟨by rw [hcb, hr.1], hr.2⟩

theorem string_data_append (a b : String) : (a ++ b).data = a.data ++ b.data :=
  rfl

theorem mkKey_data (s : Nat) (p : Int) :
    (mkKey s p).data = (Nat.repr s).data ++ '-' :: intChars p := by
  rw [mkKey, string_data_append, string_data_append, intStr_data,
    List.append_assoc]
  rfl

theorem mkKey_injective {s₁ s₂ : Nat} {p₁ p₂ : Int}
    (h : mkKey s₁ p₁ = mkKey s₂ p₂) : s₁ = s₂ ∧ p₁ = p₂ := by
  have hd := congrArg String.data h
  rw [mkKey_data, mkKey_data] at hd
  have hsplit := append_cons_sep_inj hd (sep_not_mem_natRepr s₁)
    (sep_not_mem_natRepr s₂)
  exact ⟨natRepr_data_inj hsplit.1, intChars_inj hsplit.2⟩

/-! ## Claim C10: loadPatternNotes keeps one note per cell, last wins -/

theorem gridSet_keys_of_has {g : Grid} {k : String} (v : Note)
    (h : gridHas g k = true) :
    (gridSet g k v).map Prod.fst = g.map Prod.fst := by
  rw [gridSet, h, if_pos rfl, List.map_map]
  apply List.map_congr_left
  intro e _
  by_cases he : e.1 = k
  · simp [he]
  · simp [he]

theorem gridSet_keys_of_not_has {g : Grid} {k : String} (v : Note)
    (h : gridHas g k = false) :
    (gridSet g k v).map Prod.fst = g.map Prod.fst ++ [k] := by
  rw [gridSet_of_has_eq_false _ h, List.map_append]
  rfl

theorem gridSet_wf {g : Grid} {k : String} {v : Note}
    (hv : k = noteKey v) (hwf : ∀ e ∈ g, e.1 = noteKey e.2) :
    ∀ e ∈ gridSet g k v, e.1 = noteKey e.2 := by
  intro e he
  cases hh : gridHas g k
  · rw [gridSet_of_has_eq_false _ hh] at he
    rcases List.mem_append.mp he with h1 | h1
    · exact hwf e h1
    · have : e = (k, v) := by simpa using h1
      subst this
      exact hv
  · rw [gridSet, hh, if_pos rfl] at he
    rw [List.mem_map] at he
    obtain ⟨e0, he0, rfl⟩ := he
    by_cases h0 : e0.1 = k
    · simp only [h0, beq_self_eq_true, if_true]
      exact hv
    · have : (e0.1 == k) = false := by
        simpa using h0
      rw [this]
      simp only [Bool.false_eq_true, if_false]
      exact hwf e0 he0

theorem gridSet_nodup_keys {g : Grid} {k : String} (v : Note)
    (hnd : (g.map Prod.fst).Nodup) :
    ((gridSet g k v).map Prod.fst).Nodup := by
  cases hh : gridHas g k
  · rw [gridSet_keys_of_not_has v hh]
    have hk : k ∉ g.map Prod.fst := by
      intro hm
      rw [List.mem_map] at hm
      obtain ⟨e, he, hek⟩ := hm
      have := gridHas_eq_false.mp hh e he
      exact this hek
    simp [List.nodup_append, hnd, hk]
  · rw [gridSet_keys_of_has v hh]
    exact hnd

theorem buildNoteGrid_aux (l : List Note) :
    ∀ acc : Grid, (acc.map Prod.fst).Nodup → (∀ e ∈ acc, e.1 = noteKey e.2) →
    (((l.foldl (fun noteMap note =>
        gridSet noteMap (mkKey note.step_index note.pitch) note) acc).map
          Prod.fst).Nodup ∧
      ∀ e ∈ l.foldl (fun noteMap note =>
        gridSet noteMap (mkKey note.step_index note.pitch) note) acc,
        e.1 = noteKey e.2) := by
  induction l with
  | nil => intro acc h1 h2; exact ⟨h1, h2⟩
  | cons n tl ih =>
      intro acc h1 h2
      rw [List.foldl_cons]
      exact ih (gridSet acc (mkKey n.step_index n.pitch) n)
        (gridSet_nodup_keys n h1) (gridSet_wf rfl h2)

theorem gridLookup_buildNoteGrid (l : List Note) (k : String) :
    gridLookup (buildNoteGrid l) k =
      (l.filter (fun n => noteKey n == k)).getLast? := by
  induction l using List.reverseRecOn with
  | nil => rfl
  | append_singleton tl n ih =>
      have hb : buildNoteGrid (tl ++ [n]) =
          gridSet (buildNoteGrid tl) (mkKey n.step_index n.pitch) n := by
        rw [buildNoteGrid, buildNoteGrid, List.foldl_append]
        rfl
      rw [hb, List.filter_append]
      by_cases hk : noteKey n = k
      · rw [show mkKey n.step_index n.pitch = k from hk, gridLookup_set_self]
        have hf : List.filter (fun n => noteKey n == k) [n] = [n] := by
          simp [hk]
        rw [hf, List.getLast?_concat]
      · have hne : k ≠ mkKey n.step_index n.pitch := fun he => hk he.symm
        rw [gridLookup_set_ne hne, ih]
        have hf : List.filter (fun n => noteKey n == k) [n] = [] := by
          simp [hk]
        rw [hf, List.append_nil]

theorem filter_key_eq_filter_cell (notes : List Note) (s : Nat) (p : Int) :
    notes.filter (fun n => noteKey n == mkKey s p) =
      notes.filter (fun n => n.step_index == s && n.pitch == p) := by
  apply List.filter_congr
  intro n _
  rw [Bool.eq_iff_iff]
  simp only [beq_iff_eq, Bool.and_eq_true]
  constructor
  · intro hk
    exact ⟨(mkKey_injective hk).1, (mkKey_injective hk).2⟩
  · intro hc
    rw [noteKey, hc.1, hc.2]

/-- C10: the grid built by `loadPatternNotes` is keyed by the string
`` `${step_index}-${pitch}` ``, holds at most one note per key (its keys
are pairwise distinct), and for every cell `(s, p)` the key `` `${s}-${p}` ``
maps to exactly the last note of the fetched list whose `(step_index,
pitch)` equals `(s, p)` — so when the list contains several notes for one
cell, only the last one in list order remains. -/
theorem buildNoteGrid_lastWins (notes : List Note) (s : Nat) (p : Int) :
    ((buildNoteGrid notes).map Prod.fst).Nodup ∧
    (∀ e ∈ buildNoteGrid notes, e.1 = noteKey e.2) ∧
    gridLookup (buildNoteGrid notes) (mkKey s p) =
      (notes.filter (fun n => n.step_index == s && n.pitch == p)).getLast? := by
  have haux := buildNoteGrid_aux notes [] (by simp) (by simp)
  refine ⟨haux.1, haux.2, ?_⟩
  rw [gridLookup_buildNoteGrid, filter_key_eq_filter_cell]

end QuillMusic
